import Mathlib

/-!
Shallow embedding of the `taxonomy` crate (files `src/values.rs`, `src/api.rs`,
`src/devices.rs`) and proofs about its value algebra, ranges, tagging API and
watch options.

Modelling conventions:
* Rust `f64` payloads are modelled as `ℚ`.  All claims about them concern only
  comparisons and equality of exactly representable values, where the IEEE
  behaviour on non-NaN inputs coincides with the rational one.
* Rust panics (`unimplemented!()` in `Temperature::as_c`, reached from
  `PartialOrd` and `Range::contains`) are modelled by an outer `Option` layer:
  `none` means the call panics, `some x` means it returns `x`.
* `Option Ordering` is the result of Rust `partial_cmp`: `none` is
  `None` (incomparable), `some o` is `Some(o)`.
* Machine integers (`u64`, `u32`) are modelled as `ℕ`, with an explicit
  `% 2 ^ 64` where the Rust code can overflow.
-/

namespace Taxonomy

open Batteries

/-- The `Type` enum of `values.rs` (renamed: `Type` is reserved in Lean). -/
inductive Ty
  | Unit
  | Bool
  | Duration
  | TimeStamp
  | Temperature
  | String
  | Color
  | Json
  | Binary
  | ExtNumeric
deriving DecidableEq, Repr

/-- `enum Temperature { F(f64), C(f64) }` from `values.rs`. -/
inductive Temperature
  | F (x : ℚ)
  | C (x : ℚ)
deriving DecidableEq, Repr

/-- `Temperature::as_f`.  The Rust body is `unimplemented!()`, i.e. every call
panics; the panic is modelled as `none`. -/
def Temperature.as_f (_ : Temperature) : Option ℚ := none

/-- `Temperature::as_c`.  The Rust body is `unimplemented!()`, i.e. every call
panics; the panic is modelled as `none`. -/
def Temperature.as_c (_ : Temperature) : Option ℚ := none

/-- `enum Color { RGBA(f64, f64, f64, f64, f64) }` from `values.rs`. -/
inductive Color
  | RGBA (x1 x2 x3 x4 x5 : ℚ)
deriving DecidableEq, Repr

/-- `struct Json(serde_json::value::Value)` from `values.rs`.  The payload type
belongs to the external `serde_json` crate; only its structural equality
matters to any proof here, so it is modelled opaquely by its serialized
text. -/
structure Json where
  raw : String
deriving DecidableEq, Repr

/-- `struct ExtNumeric` from `values.rs`. -/
structure ExtNumeric where
  value : ℚ
  vendor : String
  adapter : String
  kind : String
deriving DecidableEq, Repr

/-- `struct ValDuration(Duration)` from `values.rs`.  `std::time::Duration` is
a pair of whole seconds (`u64`) and a sub-second nanosecond count (`u32`). -/
structure ValDuration where
  secs : ℕ
  nanos : ℕ
deriving DecidableEq, Repr

/-- The payload of `struct TimeStamp(chrono::DateTime<chrono::UTC>)` from
`values.rs`, modelled by its civil UTC fields (which is what the RFC 3339
serialization reads and writes). -/
structure DateTimeUTC where
  year : ℕ
  month : ℕ
  day : ℕ
  hour : ℕ
  minute : ℕ
  second : ℕ
  nano : ℕ
deriving DecidableEq, Repr

/-- `struct TimeStamp` from `values.rs`. -/
abbrev TimeStamp := DateTimeUTC

/-- `enum Value` from `values.rs`.  `Arc<String>`, `Arc<Json>` and
`Arc<Vec<u8>>` are reference-counted immutable payloads; the `Arc` layer is
identity for equality and comparison and is dropped.  `Vec<u8>` is a byte
list. -/
inductive Value
  | Unit
  | Bool (b : Bool)
  | Duration (d : ValDuration)
  | TimeStamp (t : TimeStamp)
  | Temperature (t : Temperature)
  | Color (c : Color)
  | String (s : String)
  | ExtNumeric (e : ExtNumeric)
  | Json (j : Json)
  | Binary (data : List ℕ) (mimetype : String)
deriving DecidableEq, Repr

/-- `Value::get_type` from `values.rs`. -/
def Value.get_type : Value → Ty
  | Value.Unit => Ty.Unit
  | Value.Bool _ => Ty.Bool
  | Value.String _ => Ty.String
  | Value.Duration _ => Ty.Duration
  | Value.TimeStamp _ => Ty.TimeStamp
  | Value.Temperature _ => Ty.Temperature
  | Value.Color _ => Ty.Color
  | Value.Json _ => Ty.Json
  | Value.Binary _ _ => Ty.Binary
  | Value.ExtNumeric _ => Ty.ExtNumeric

/-!  ## Comparator kernel

Rust derives `PartialOrd`/`Ord` lexicographically over fields.  On the `ℚ`/`ℕ`
model every payload order is total, so payload comparators return a plain
`Ordering`; partiality (`None`) and panics appear only at the `Value` level.
-/

/-- Total comparator of a linear order (the behaviour of Rust `Ord::cmp` on
scalar payloads). -/
def cmpLin {α : Type} [LinearOrder α] (a b : α) : Ordering :=
  if a < b then Ordering.lt else if a = b then Ordering.eq else Ordering.gt

/-- Comparator on `α` obtained from a comparator on `β` through a projection
(used for field-wise lexicographic comparison, as in Rust `derive`). -/
def cmpOn {α β : Type} (c : β → β → Ordering) (f : α → β) (a b : α) : Ordering :=
  c (f a) (f b)

/-- Lexicographic comparator on lists, as Rust compares `Vec<u8>`, `str` and
`String` (shorter prefix first). -/
def cmpList {α : Type} (c : α → α → Ordering) : List α → List α → Ordering
  | [], [] => Ordering.eq
  | [], _ :: _ => Ordering.lt
  | _ :: _, [] => Ordering.gt
  | a :: as, b :: bs => (c a b).then (cmpList c as bs)

/-- Rust `String` comparison (byte-lexicographic; UTF-8 byte order agrees with
code-point order). -/
def strCmp : String → String → Ordering :=
  cmpOn (cmpList cmpLin) String.toList

/-- Derived `Ord` on `std::time::Duration`: lexicographic on
`(secs, nanos)`. -/
def ValDuration.cmp : ValDuration → ValDuration → Ordering :=
  compareLex (cmpOn cmpLin ValDuration.secs) (cmpOn cmpLin ValDuration.nanos)

/-- `Ord` on `chrono::DateTime<UTC>`: chronological, i.e. lexicographic on the
civil UTC fields. -/
def TimeStamp.cmp : TimeStamp → TimeStamp → Ordering :=
  compareLex (cmpOn cmpLin DateTimeUTC.year)
    (compareLex (cmpOn cmpLin DateTimeUTC.month)
      (compareLex (cmpOn cmpLin DateTimeUTC.day)
        (compareLex (cmpOn cmpLin DateTimeUTC.hour)
          (compareLex (cmpOn cmpLin DateTimeUTC.minute)
            (compareLex (cmpOn cmpLin DateTimeUTC.second)
              (cmpOn cmpLin DateTimeUTC.nano))))))

/-- Field of `Color::RGBA`. -/
def Color.f1 : Color → ℚ | Color.RGBA x _ _ _ _ => x
/-- Field of `Color::RGBA`. -/
def Color.f2 : Color → ℚ | Color.RGBA _ x _ _ _ => x
/-- Field of `Color::RGBA`. -/
def Color.f3 : Color → ℚ | Color.RGBA _ _ x _ _ => x
/-- Field of `Color::RGBA`. -/
def Color.f4 : Color → ℚ | Color.RGBA _ _ _ x _ => x
/-- Field of `Color::RGBA`. -/
def Color.f5 : Color → ℚ | Color.RGBA _ _ _ _ x => x

/-- Derived `PartialOrd` on `Color` (single variant, lexicographic on the five
`f64` fields, total on the `ℚ` model). -/
def Color.cmp : Color → Color → Ordering :=
  compareLex (cmpOn cmpLin Color.f1)
    (compareLex (cmpOn cmpLin Color.f2)
      (compareLex (cmpOn cmpLin Color.f3)
        (compareLex (cmpOn cmpLin Color.f4) (cmpOn cmpLin Color.f5))))

/-- `impl PartialOrd for ExtNumeric` from `values.rs`: incomparable unless
vendor and kind agree, otherwise ordered by the numeric value (the `adapter`
field is never consulted). -/
def ExtNumeric.cmp (a b : ExtNumeric) : Option Ordering :=
  if a.vendor ≠ b.vendor then none
  else if a.kind ≠ b.kind then none
  else some (cmpLin a.value b.value)

/-- `impl PartialOrd for Temperature` from `values.rs`:
`self.as_c().partial_cmp(&other.as_c())`.  Since `as_c` panics on every input,
the comparison always panics (outer `none`). -/
def Temperature.cmp (a b : Temperature) : Option (Option Ordering) :=
  match a.as_c, b.as_c with
  | some x, some y => some (some (cmpLin x y))
  | _, _ => none

/-- `impl PartialOrd for Value` from `values.rs` (`partial_cmp`), with the
panic layer: `none` = the call panics, `some none` = `None` (incomparable),
`some (some o)` = `Some(o)`.  Match arms are in source order. -/
def valueCmp : Value → Value → Option (Option Ordering)
  | Value.Unit, Value.Unit => some (some Ordering.eq)
  | Value.Unit, _ => some none
  | Value.Bool a, Value.Bool b => some (some (cmpLin a b))
  | Value.Bool _, _ => some none
  | Value.Duration a, Value.Duration b => some (some (ValDuration.cmp a b))
  | Value.Duration _, _ => some none
  | Value.TimeStamp a, Value.TimeStamp b => some (some (TimeStamp.cmp a b))
  | Value.TimeStamp _, _ => some none
  | Value.Temperature a, Value.Temperature b => Temperature.cmp a b
  | Value.Temperature _, _ => some none
  | Value.Color a, Value.Color b => some (some (Color.cmp a b))
  | Value.Color _, _ => some none
  | Value.ExtNumeric a, Value.ExtNumeric b => some (ExtNumeric.cmp a b)
  | Value.ExtNumeric _, _ => some none
  | Value.String a, Value.String b => some (some (strCmp a b))
  | Value.String _, _ => some none
  | Value.Json _, Value.Json _ => some none
  | Value.Json _, _ => some none
  | Value.Binary d1 m1, Value.Binary d2 m2 =>
      if m1 = m2 then some (some (cmpList cmpLin d1 d2)) else some none
  | Value.Binary _ _, _ => some none

/-- Derived `PartialEq` on `Value`: structural equality (it never calls
`as_c`, hence never panics). -/
def valueEq (a b : Value) : Bool := decide (a = b)

/-- Rust default `PartialOrd::le`: `matches!(partial_cmp, Some(Less) | Some(Equal))`. -/
def ordIsLe : Option Ordering → Bool
  | some Ordering.lt => true
  | some Ordering.eq => true
  | _ => false

/-- Rust default `PartialOrd::lt`: `matches!(partial_cmp, Some(Less))`. -/
def ordIsLt : Option Ordering → Bool
  | some Ordering.lt => true
  | _ => false

/-- Rust default `PartialOrd::ge`: `matches!(partial_cmp, Some(Greater) | Some(Equal))`. -/
def ordIsGe : Option Ordering → Bool
  | some Ordering.gt => true
  | some Ordering.eq => true
  | _ => false

/-- `a <= b` on `Value` (panic propagating). -/
def valueLe (a b : Value) : Option Bool := Option.map ordIsLe (valueCmp a b)

/-- `a < b` on `Value` (panic propagating). -/
def valueLt (a b : Value) : Option Bool := Option.map ordIsLt (valueCmp a b)

/-- `a >= b` on `Value` (panic propagating). -/
def valueGe (a b : Value) : Option Bool := Option.map ordIsGe (valueCmp a b)

/-- Short-circuiting `&&` in the panic model: the right operand is only
relevant when the left returns `true` (as in Rust). -/
def optAnd : Option Bool → Option Bool → Option Bool
  | none, _ => none
  | some false, _ => some false
  | some true, b => b

/-- Short-circuiting `||` in the panic model. -/
def optOr : Option Bool → Option Bool → Option Bool
  | none, _ => none
  | some true, _ => some true
  | some false, b => b

/-- `enum Range` from `values.rs`. -/
inductive Range
  | Leq (x : Value)
  | Geq (x : Value)
  | BetweenEq (min max : Value)
  | OutOfStrict (min max : Value)
  | Eq (x : Value)
deriving DecidableEq

/-- `Range::contains` from `values.rs`, with panic propagation (`none` = the
call panics). -/
def Range.contains : Range → Value → Option Bool
  | Range.Leq mx, v => valueLe v mx
  | Range.Geq mn, v => valueGe v mn
  | Range.BetweenEq mn mx, v => optAnd (valueLe mn v) (valueLe v mx)
  | Range.OutOfStrict mn mx, v => optOr (valueLt v mn) (valueLt mx v)
  | Range.Eq x, v => some (valueEq v x)

/-- `Range::get_type` from `values.rs`: `Result<Type, ()>`. -/
def Range.get_type : Range → Except Unit Ty
  | Range.Leq v => Except.ok v.get_type
  | Range.Geq v => Except.ok v.get_type
  | Range.Eq v => Except.ok v.get_type
  | Range.BetweenEq mn mx =>
      if mn.get_type = mx.get_type then Except.ok mn.get_type else Except.error ()
  | Range.OutOfStrict mn mx =>
      if mn.get_type = mx.get_type then Except.ok mn.get_type else Except.error ()

/-- Spec wording for the claim about `Range::get_type`: a two-bound range
whose bounds have different `Type`s. -/
def Range.isTwoBoundMismatch : Range → Bool
  | Range.BetweenEq mn mx => decide (mn.get_type ≠ mx.get_type)
  | Range.OutOfStrict mn mx => decide (mn.get_type ≠ mx.get_type)
  | _ => false

/-!  ## Serialization of `ValDuration`

`impl Serialize for ValDuration` writes the whole number of milliseconds
(`secs * 1000 + nanos / 1_000_000`, `u64` arithmetic).
`impl Deserialize for ValDuration` reads the JSON number as `f64` into a
variable `as_sec` and builds `Duration::new(as_sec as u64, as_sec.fract() as u32)`.
The deserializer is modelled on an exact rational input: `as u64` is
truncation toward zero saturating at `0` (that is `⌊q⌋.toNat` for any sign),
and `fract() as u32` likewise truncates the fractional part.
-/

/-- `ValDuration::serialize`: milliseconds as a `u64`. -/
def ValDuration.serialize (d : ValDuration) : ℕ :=
  (d.secs * 1000 + d.nanos / 1000000) % 2 ^ 64

/-- `ValDuration::deserialize` on an exact rational JSON number. -/
def ValDuration.deserialize (q : ℚ) : ValDuration :=
  ⟨q.floor.toNat, ((q - (q.floor : ℚ)).floor).toNat⟩

/-!  ## Serialization of `TimeStamp`

`impl Serialize for TimeStamp` calls `chrono`'s `to_rfc3339`;
`impl Deserialize for TimeStamp` parses with
`chrono::DateTime::<chrono::UTC>::from_str` and maps a parse failure to the
syntax error `"Invalid date"`.  The printing and parsing themselves live in
the external `chrono` crate.  Modelled from the spec: an RFC 3339 printer
(`YYYY-MM-DDTHH:MM:SS[.fffffffff]+00:00`) and a parser for that exact format
(also accepting a `Z` offset), rejecting everything else.
-/

/-- Decimal digit character. -/
def digitChar (n : ℕ) : Char := Char.ofNat (48 + n)

/-- Zero-padded fixed-width decimal printing, most significant digit first. -/
def padDigits : ℕ → ℕ → List Char
  | 0, _ => []
  | k + 1, n => digitChar (n / 10 ^ k) :: padDigits k (n % 10 ^ k)

/-- Read one decimal digit. -/
def readDigit (c : Char) : Option ℕ :=
  if 48 ≤ c.toNat ∧ c.toNat ≤ 57 then some (c.toNat - 48) else none

/-- Read exactly `k` decimal digits (most significant first), accumulating
into `acc`; fails on a non-digit or on exhausted input. -/
def readDigits : ℕ → ℕ → List Char → Option (ℕ × List Char)
  | 0, acc, rest => some (acc, rest)
  | k + 1, acc, input =>
    match input with
    | [] => none
    | c :: rest =>
      match readDigit c with
      | none => none
      | some d => readDigits k (acc * 10 + d) rest

/-- Read up to `fuel` decimal digits, stopping at the first non-digit;
returns the accumulated value, the number of digits consumed and the rest. -/
def readFracDigits : ℕ → ℕ → ℕ → List Char → ℕ × ℕ × List Char
  | 0, acc, cnt, rest => (acc, cnt, rest)
  | fuel + 1, acc, cnt, input =>
    match input with
    | [] => (acc, cnt, [])
    | c :: rest =>
      match readDigit c with
      | none => (acc, cnt, c :: rest)
      | some d => readFracDigits fuel (acc * 10 + d) (cnt + 1) rest

/-- Optional fractional-second part: a dot followed by 1 to 9 digits scaled
to nanoseconds; absent means zero nanoseconds. -/
def readFrac : List Char → Option (ℕ × List Char)
  | [] => some (0, [])
  | c :: rest =>
    if c = '.' then
      match readFracDigits 9 0 0 rest with
      | (acc, cnt, rest2) =>
        if 1 ≤ cnt then some (acc * 10 ^ (9 - cnt), rest2) else none
    else some (0, c :: rest)

/-- Expect one specific character. -/
def expectChar (c : Char) : List Char → Option (List Char)
  | [] => none
  | x :: rest => if x = c then some rest else none

/-- The UTC offset accepted by the parser: `+00:00` (what `to_rfc3339`
prints) or `Z`. -/
def readOffset : List Char → Option (List Char)
  | '+' :: '0' :: '0' :: ':' :: '0' :: '0' :: rest => some rest
  | 'Z' :: rest => some rest
  | _ => none

/-- Gregorian leap year. -/
def isLeap (y : ℕ) : Bool := (y % 4 = 0 && y % 100 ≠ 0) || y % 400 = 0

/-- Days in a month of the proleptic Gregorian calendar. -/
def daysInMonth (y m : ℕ) : ℕ :=
  if m = 1 then 31
  else if m = 2 then (if isLeap y then 29 else 28)
  else if m = 3 then 31
  else if m = 4 then 30
  else if m = 5 then 31
  else if m = 6 then 30
  else if m = 7 then 31
  else if m = 8 then 31
  else if m = 9 then 30
  else if m = 10 then 31
  else if m = 11 then 30
  else if m = 12 then 31
  else 0

/-- Validity of the civil fields of a `DateTime<UTC>` (four-digit year, real
calendar date, nanoseconds below one second). -/
def validDT (d : DateTimeUTC) : Bool :=
  decide (d.year < 10000) && decide (1 ≤ d.month) && decide (d.month ≤ 12) &&
  decide (1 ≤ d.day) && decide (d.day ≤ daysInMonth d.year d.month) &&
  decide (d.hour < 24) && decide (d.minute < 60) && decide (d.second < 60) &&
  decide (d.nano < 1000000000)

/-- Fractional-second part printed by `to_rfc3339`: empty when the timestamp
has whole seconds, otherwise a dot and nine digits. -/
def fracPart (n : ℕ) : List Char :=
  if n = 0 then [] else '.' :: padDigits 9 n

/-- The `+00:00` suffix printed by `to_rfc3339` on a UTC timestamp. -/
def offsetPart : List Char := ['+', '0', '0', ':', '0', '0']

/-- RFC 3339 printing of a UTC timestamp (`chrono`'s `to_rfc3339`). -/
def printRfc3339 (d : DateTimeUTC) : List Char :=
  padDigits 4 d.year ++ '-' ::
    (padDigits 2 d.month ++ '-' ::
      (padDigits 2 d.day ++ 'T' ::
        (padDigits 2 d.hour ++ ':' ::
          (padDigits 2 d.minute ++ ':' ::
            (padDigits 2 d.second ++ (fracPart d.nano ++ offsetPart))))))

/-- RFC 3339 parsing of a UTC timestamp (`chrono`'s
`DateTime::<UTC>::from_str`): the exact printed shape, with optional
fractional seconds and `Z` allowed as offset; anything else is rejected. -/
def parseRfc3339 (input : List Char) : Option DateTimeUTC :=
  match readDigits 4 0 input with
  | none => none
  | some (y, r1) =>
  match expectChar '-' r1 with
  | none => none
  | some r2 =>
  match readDigits 2 0 r2 with
  | none => none
  | some (mo, r3) =>
  match expectChar '-' r3 with
  | none => none
  | some r4 =>
  match readDigits 2 0 r4 with
  | none => none
  | some (dy, r5) =>
  match expectChar 'T' r5 with
  | none => none
  | some r6 =>
  match readDigits 2 0 r6 with
  | none => none
  | some (hr, r7) =>
  match expectChar ':' r7 with
  | none => none
  | some r8 =>
  match readDigits 2 0 r8 with
  | none => none
  | some (mi, r9) =>
  match expectChar ':' r9 with
  | none => none
  | some r10 =>
  match readDigits 2 0 r10 with
  | none => none
  | some (se, r11) =>
  match readFrac r11 with
  | none => none
  | some (na, r12) =>
  match readOffset r12 with
  | none => none
  | some r13 =>
  if r13 = [] then
    let dt : DateTimeUTC := ⟨y, mo, dy, hr, mi, se, na⟩
    if validDT dt then some dt else none
  else none

/-- `TimeStamp::serialize`: the RFC 3339 string. -/
def TimeStamp.serialize (t : TimeStamp) : String := String.mk (printRfc3339 t)

/-- `TimeStamp::deserialize`: parse the string, or fail with the syntax error
the Rust code produces (`D::Error::syntax("Invalid date")`). -/
def TimeStamp.deserialize (s : String) : Except String TimeStamp :=
  match parseRfc3339 s.toList with
  | some dt => Except.ok dt
  | none => Except.error "Invalid date"

/-!  ## Selector and tag engine

`api.rs` only declares `fn put_node_tag(&self, set: &Vec<NodeSelector>,
tags: &Vec<String>) -> usize` on the `API` trait, and `selector.rs` (the
module defining `NodeSelector`/`GetterSelector`) is not part of the sources.
The operational behaviour below is therefore modelled from the spec and from
the trait documentation: a selector list is resolved once against the current
node set (OR across the list), every requested tag is added to every matched
node's tag set without duplication, and the number of matched nodes is
returned whether or not they already carried the tags.  Tag matching uses the
all-of containment policy the spec prescribes.
-/

/-- Modelled from the spec: `NodeSelector` (declared in the missing
`selector.rs`), reduced to its tag condition; a node matches when it carries
every requested tag (all-of policy). -/
structure NodeSelector where
  tags : List String
deriving DecidableEq, Repr

/-- The node data the tag engine needs: its id and its mutable tag set
(`Node` of `devices.rs`, restricted to the fields `put_node_tag` touches). -/
structure Node where
  id : String
  tags : List String
deriving DecidableEq, Repr

/-- One selector matches a node: all requested tags are present. -/
def selMatches (sel : NodeSelector) (n : Node) : Bool :=
  sel.tags.all (fun t => n.tags.contains t)

/-- A selector list matches a node with OR semantics. -/
def selAnyMatches (sels : List NodeSelector) (n : Node) : Bool :=
  sels.any (fun sel => selMatches sel n)

/-- Add one tag to a tag set, idempotently. -/
def addTag (tags : List String) (t : String) : List String :=
  if tags.contains t then tags else tags ++ [t]

/-- Add every requested tag to a tag set, idempotently. -/
def addTags (tags ts : List String) : List String := ts.foldl addTag tags

/-- Effect of the tag operation on one node: tag it when it matches any
selector of the snapshot, leave it alone otherwise. -/
def tagNode (sels : List NodeSelector) (ts : List String) (n : Node) : Node :=
  if selAnyMatches sels n then ⟨n.id, addTags n.tags ts⟩ else n

/-- Modelled from the spec: `API::put_node_tag` — resolve the selector list
once against the current node list, tag every matched node, and return the
number of matched nodes. -/
def put_node_tag (sels : List NodeSelector) (ts : List String)
    (nodes : List Node) : ℕ × List Node :=
  (nodes.countP (fun n => selAnyMatches sels n), nodes.map (tagNode sels ts))

/-!  ## Watch options (`api.rs`)

`GetterSelector` also lives in the missing `selector.rs`; modelled from the
spec as a bag of conjoined requirements whose `new` is the empty requirement
and whose `and` concatenates requirements (monotonic conjunctive
refinement). -/

/-- Modelled from the spec: `GetterSelector` with `new` and `and`. -/
structure GetterSelector where
  requiredTags : List String
deriving DecidableEq, Repr

/-- `GetterSelector::new`: no requirement. -/
def GetterSelector.new : GetterSelector := ⟨[]⟩

/-- `GetterSelector::and`: conjoin the requirements of two selectors. -/
def GetterSelector.and (a b : GetterSelector) : GetterSelector :=
  ⟨a.requiredTags ++ b.requiredTags⟩

/-- `struct WatchOptions` from `api.rs` (the `private: ()` marker field is
kept as `priv_marker`). -/
structure WatchOptions where
  source : GetterSelector
  should_watch_values : Bool
  should_watch_topology : Bool
  priv_marker : Unit
deriving DecidableEq, Repr

/-- `WatchOptions::new` from `api.rs`. -/
def WatchOptions.new : WatchOptions :=
  ⟨GetterSelector.new, false, false, ()⟩

/-- `WatchOptions::with_getters` from `api.rs`: conjoin `req` onto the
source selector, keep every other field (`..self`). -/
def WatchOptions.with_getters (w : WatchOptions) (req : GetterSelector) : WatchOptions :=
  ⟨w.source.and req, w.should_watch_values, w.should_watch_topology, w.priv_marker⟩

/-- `WatchOptions::with_watch_values` from `api.rs`. -/
def WatchOptions.with_watch_values (w : WatchOptions) (should : Bool) : WatchOptions :=
  ⟨w.source, should, w.should_watch_topology, w.priv_marker⟩

/-- `WatchOptions::with_watch_topology` from `api.rs`. -/
def WatchOptions.with_watch_topology (w : WatchOptions) (should : Bool) : WatchOptions :=
  ⟨w.source, w.should_watch_values, should, w.priv_marker⟩

/-!  ## Lemmas: the comparator kernel -/

theorem cmpLin_eq_lt {α : Type} [LinearOrder α] {a b : α} :
    cmpLin a b = Ordering.lt ↔ a < b := by
  unfold cmpLin
  split_ifs with h1 h2
  · simp [h1]
  · simp [h1]
  · simp [h1]

theorem cmpLin_eq_eq {α : Type} [LinearOrder α] {a b : α} :
    cmpLin a b = Ordering.eq ↔ a = b := by
  unfold cmpLin
  split_ifs with h1 h2
  · simp [h1.ne]
  · simp [h2]
  · simp [h2]

theorem cmpLin_eq_gt {α : Type} [LinearOrder α] {a b : α} :
    cmpLin a b = Ordering.gt ↔ b < a := by
  unfold cmpLin
  split_ifs with h1 h2
  · simp [asymm h1]
  · simp [h2, lt_irrefl]
  · have hba : b < a := lt_of_le_of_ne (not_lt.mp h1) (Ne.symm h2)
    simp [hba]

instance {α : Type} [LinearOrder α] : OrientedCmp (cmpLin : α → α → Ordering) where
  symm a b := by
    rcases lt_trichotomy a b with h | h | h
    · rw [cmpLin_eq_lt.mpr h, cmpLin_eq_gt.mpr h]; rfl
    · rw [cmpLin_eq_eq.mpr h, cmpLin_eq_eq.mpr h.symm]; rfl
    · rw [cmpLin_eq_gt.mpr h, cmpLin_eq_lt.mpr h]; rfl

instance {α : Type} [LinearOrder α] : TransCmp (cmpLin : α → α → Ordering) where
  le_trans h1 h2 := by
    intro hg
    have hxy := not_lt.mp (fun hl => h1 (cmpLin_eq_gt.mpr hl))
    have hyz := not_lt.mp (fun hl => h2 (cmpLin_eq_gt.mpr hl))
    exact absurd (cmpLin_eq_gt.mp hg) (not_lt.mpr (le_trans hxy hyz))

instance {α β : Type} {c : β → β → Ordering} [OrientedCmp c] (f : α → β) :
    OrientedCmp (cmpOn c f) where
  symm a b := OrientedCmp.symm (f a) (f b)

instance {α β : Type} {c : β → β → Ordering} [TransCmp c] (f : α → β) :
    TransCmp (cmpOn c f) where
  le_trans h1 h2 := @TransCmp.le_trans _ c inferInstance _ _ _ h1 h2

theorem cmpList_swap {α : Type} {c : α → α → Ordering} [OrientedCmp c] :
    ∀ (x y : List α), (cmpList c x y).swap = cmpList c y x
  | [], [] => rfl
  | [], _ :: _ => rfl
  | _ :: _, [] => rfl
  | a :: as, b :: bs => by
      show ((c a b).then (cmpList c as bs)).swap = (c b a).then (cmpList c bs as)
      rw [Ordering.swap_then, OrientedCmp.symm a b, cmpList_swap as bs]

instance {α : Type} {c : α → α → Ordering} [OrientedCmp c] :
    OrientedCmp (cmpList c) where
  symm := cmpList_swap

theorem cmpList_le_trans {α : Type} {c : α → α → Ordering} [TransCmp c] :
    ∀ (x y z : List α), cmpList c x y ≠ Ordering.gt → cmpList c y z ≠ Ordering.gt →
      cmpList c x z ≠ Ordering.gt
  | [], _, [] => fun _ _ => by simp [cmpList]
  | [], _, _ :: _ => fun _ _ => by simp [cmpList]
  | _ :: _, [], _ => fun h1 _ => absurd rfl h1
  | _ :: _, _ :: _, [] => fun _ h2 => absurd rfl h2
  | a :: as, b :: bs, d :: ds => fun h1 h2 => by
      simp only [cmpList, ne_eq, Ordering.then_eq_gt, not_or, not_and] at h1 h2 ⊢
      obtain ⟨h1a, h1b⟩ := h1
      obtain ⟨h2a, h2b⟩ := h2
      refine ⟨TransCmp.le_trans h1a h2a, fun e1 => ?_⟩
      have hab : c a b = Ordering.eq := by
        cases ab : c a b with
        | lt => exact absurd (TransCmp.lt_le_trans ab h2a) (by simp [e1])
        | eq => exact rfl
        | gt => exact absurd ab h1a
      have hbd : c b d = Ordering.eq := by
        rw [← TransCmp.cmp_congr_left hab]; exact e1
      exact cmpList_le_trans as bs ds (h1b hab) (h2b hbd)

instance {α : Type} {c : α → α → Ordering} [TransCmp c] :
    TransCmp (cmpList c) where
  le_trans h1 h2 := cmpList_le_trans _ _ _ h1 h2

instance : TransCmp strCmp :=
  inferInstanceAs (TransCmp (cmpOn (cmpList cmpLin) String.toList))

instance : TransCmp ValDuration.cmp :=
  inferInstanceAs (TransCmp
    (compareLex (cmpOn cmpLin ValDuration.secs) (cmpOn cmpLin ValDuration.nanos)))

instance : TransCmp TimeStamp.cmp :=
  inferInstanceAs (TransCmp
    (compareLex (cmpOn cmpLin DateTimeUTC.year)
      (compareLex (cmpOn cmpLin DateTimeUTC.month)
        (compareLex (cmpOn cmpLin DateTimeUTC.day)
          (compareLex (cmpOn cmpLin DateTimeUTC.hour)
            (compareLex (cmpOn cmpLin DateTimeUTC.minute)
              (compareLex (cmpOn cmpLin DateTimeUTC.second)
                (cmpOn cmpLin DateTimeUTC.nano))))))))

instance : TransCmp Color.cmp :=
  inferInstanceAs (TransCmp
    (compareLex (cmpOn cmpLin Color.f1)
      (compareLex (cmpOn cmpLin Color.f2)
        (compareLex (cmpOn cmpLin Color.f3)
          (compareLex (cmpOn cmpLin Color.f4) (cmpOn cmpLin Color.f5))))))

/-- If the upper bound of a between-filter is strictly below the lower bound
under a lawful total comparator, the two conjuncts of `min <= v && v <= max`
are never simultaneously true. -/
theorem between_aux {α : Type} {c : α → α → Ordering} [TransCmp c]
    {mn mx : α} (h : c mx mn = Ordering.lt) (v : α) :
    optAnd (some (ordIsLe (some (c mn v)))) (some (ordIsLe (some (c v mx)))) = some false := by
  have hsw : c mn mx = Ordering.gt := by
    have hs := @OrientedCmp.symm _ c inferInstance mx mn
    rw [h] at hs
    exact hs.symm
  cases h1 : c mn v with
  | gt => rfl
  | lt =>
      have h2 : c v mx = Ordering.gt := by
        by_contra hc
        have h1ne : c mn v ≠ Ordering.gt := by simp [h1]
        exact TransCmp.le_trans h1ne hc hsw
      rw [h2]
      rfl
  | eq =>
      have h2 : c v mx = Ordering.gt := by
        by_contra hc
        have h1ne : c mn v ≠ Ordering.gt := by simp [h1]
        exact TransCmp.le_trans h1ne hc hsw
      rw [h2]
      rfl

/-!  ## Small helper lemmas -/

theorem ordIsLe_none : ordIsLe none = false := rfl

theorem ordIsLt_none : ordIsLt none = false := rfl

theorem ordIsGe_none : ordIsGe none = false := rfl

/-- Deserializing an exact natural JSON number `n` yields `n` whole seconds
and zero nanoseconds (the fractional part of an integer is zero). -/
theorem deserialize_natCast (n : ℕ) : ValDuration.deserialize ((n : ℕ) : ℚ) = ⟨n, 0⟩ := by
  unfold ValDuration.deserialize
  have h1 : ((n : ℚ)).floor = (n : ℤ) := by
    rw [show ((n : ℚ)).floor = ⌊(n : ℚ)⌋ from rfl, Int.floor_natCast]
  rw [h1]
  have h2 : ((n : ℚ) - ((n : ℤ) : ℚ)) = 0 := by push_cast; ring
  rw [h2]
  have h3 : ((0 : ℚ)).floor = 0 := by
    rw [show ((0 : ℚ)).floor = ⌊(0 : ℚ)⌋ from rfl, Int.floor_zero]
  rw [h3]
  simp

/-!  ## Claims -/

/-- C1: the spec claims serialize-then-deserialize is the identity on
durations.  The code serializes a duration as whole milliseconds but
deserializes the number as whole seconds (and `fract() as u32` truncates every
sub-second remainder to zero), so the round trip is not the identity: the
1500 ms duration (1 s + 500 000 000 ns) serializes to `1500` and deserializes
to 1500 whole seconds.  Only the zero boundary case round-trips. -/
theorem c1_duration_roundtrip_fails :
    ValDuration.serialize ⟨1, 500000000⟩ = 1500 ∧
    ValDuration.deserialize ((ValDuration.serialize ⟨1, 500000000⟩ : ℕ) : ℚ) = ⟨1500, 0⟩ ∧
    ValDuration.deserialize ((ValDuration.serialize ⟨1, 500000000⟩ : ℕ) : ℚ) ≠ ⟨1, 500000000⟩ ∧
    ValDuration.deserialize ((ValDuration.serialize ⟨0, 0⟩ : ℕ) : ℚ) = ⟨0, 0⟩ := by
  have hs : ValDuration.serialize ⟨1, 500000000⟩ = 1500 := by decide
  have hs0 : ValDuration.serialize ⟨0, 0⟩ = 0 := by decide
  refine ⟨hs, ?_, ?_, ?_⟩
  · rw [hs, deserialize_natCast]
  · rw [hs, deserialize_natCast]
    decide
  · rw [hs0, deserialize_natCast]

/-- C2: the spec claims `Temperature` comparison converts both operands to
Celsius and is a pure, non-failing function, with `F(32.0)` equal to
`C(0.0)`.  In the code `Temperature::as_c` is `unimplemented!()`, so every
comparison — including the claimed `F(32.0)` vs `C(0.0)` — panics instead of
returning an ordering (`none` is the panic in this model). -/
theorem c2_temperature_compare_panics :
    Temperature.as_c (Temperature.F 32) = none ∧
    Temperature.cmp (Temperature.F 32) (Temperature.C 0) = none ∧
    ∀ a b : Temperature, Temperature.cmp a b = none :=
  ⟨rfl, rfl, fun _ _ => rfl⟩

/-- C3: values of different `Type` are never ordered (`partial_cmp` returns
`None`, without panicking) and never equal. -/
theorem c3_cross_type_never_ordered_never_equal (a b : Value)
    (h : a.get_type ≠ b.get_type) :
    valueCmp a b = some none ∧ valueEq a b = false := by
  constructor
  · cases a <;> cases b <;> first | rfl | (exact absurd rfl h)
  · simp only [valueEq, decide_eq_false_iff_not]
    intro hab
    subst hab
    exact h rfl

/-- Witness for C3 at `Bool(true)` vs `Unit`. -/
theorem c3_witness :
    Value.get_type (Value.Bool true) ≠ Value.get_type Value.Unit ∧
    (valueCmp (Value.Bool true) Value.Unit = some none ∧
      valueEq (Value.Bool true) Value.Unit = false) :=
  ⟨by decide, c3_cross_type_never_ordered_never_equal (Value.Bool true) Value.Unit (by decide)⟩

/-- C4: the spec claims `Range::contains` is total and never panics, treating
incomparable as `false`.  Incomparable comparisons indeed yield `false` (for
`Leq`/`Geq`, and `Eq` is plain structural equality), but the claim fails as
stated: with `Temperature` bounds the comparison reaches the
`unimplemented!()` panic of `as_c`, so `contains` panics (first conjunct,
`none` = panic). -/
theorem c4_contains_panics_on_temperature :
    Range.contains (Range.Leq (Value.Temperature (Temperature.C 0)))
        (Value.Temperature (Temperature.C 0)) = none ∧
    (∀ v mx : Value, valueCmp v mx = some none →
      Range.contains (Range.Leq mx) v = some false) ∧
    (∀ mn v : Value, valueCmp v mn = some none →
      Range.contains (Range.Geq mn) v = some false) ∧
    (∀ x v : Value, Range.contains (Range.Eq x) v = some (valueEq v x)) := by
  refine ⟨rfl, ?_, ?_, fun x v => rfl⟩
  · intro v mx h
    simp [Range.contains, valueLe, h, ordIsLe_none]
  · intro mn v h
    simp [Range.contains, valueGe, h, ordIsGe_none]

/-- Witness for C4 at the incomparable pair `String("x")` vs `Bool(true)`. -/
theorem c4_witness :
    valueCmp (Value.String "x") (Value.Bool true) = some none ∧
    Range.contains (Range.Leq (Value.Bool true)) (Value.String "x") = some false :=
  ⟨rfl, c4_contains_panics_on_temperature.2.1 _ _ rfl⟩

/-- C5: `Range::get_type` succeeds with the bound type on the one-bound
variants, succeeds with the common type on type-homogeneous two-bound
variants, and reports the type-mismatch error exactly on two-bound variants
whose bounds differ in `Type`. -/
theorem c5_range_get_type (r : Range) :
    (∀ v, r = Range.Leq v ∨ r = Range.Geq v ∨ r = Range.Eq v →
        Range.get_type r = Except.ok v.get_type) ∧
    (∀ mn mx, r = Range.BetweenEq mn mx ∨ r = Range.OutOfStrict mn mx →
        (mn.get_type = mx.get_type → Range.get_type r = Except.ok mn.get_type) ∧
        (mn.get_type ≠ mx.get_type → Range.get_type r = Except.error ())) ∧
    (Range.get_type r = Except.error () ↔ r.isTwoBoundMismatch = true) := by
  refine ⟨?_, ?_, ?_⟩
  · rintro v (rfl | rfl | rfl) <;> rfl
  · rintro mn mx (rfl | rfl) <;>
      exact ⟨fun h => by simp [Range.get_type, h], fun h => by simp [Range.get_type, h]⟩
  · cases r <;> simp [Range.get_type, Range.isTwoBoundMismatch]

/-- Witness for C5: the spec example
`BetweenEq {min: Bool(true), max: TimeStamp(..)}` fails with the type
mismatch. -/
theorem c5_witness :
    Range.get_type
        (Range.BetweenEq (Value.Bool true) (Value.TimeStamp ⟨2020, 1, 1, 0, 0, 0, 0⟩)) =
      Except.error () :=
  (c5_range_get_type _).2.2.mpr (by decide)

/-- C7: `ExtNumeric` comparison is `None` whenever vendors or kinds differ,
orders by the numeric value when both agree, and never consults the
`adapter` field. -/
theorem c7_extnumeric_cmp (a b : ExtNumeric) :
    ((a.vendor ≠ b.vendor ∨ a.kind ≠ b.kind) → ExtNumeric.cmp a b = none) ∧
    (a.vendor = b.vendor → a.kind = b.kind →
      ExtNumeric.cmp a b = some (cmpLin a.value b.value)) ∧
    (∀ x y : String,
      ExtNumeric.cmp ⟨a.value, a.vendor, x, a.kind⟩ ⟨b.value, b.vendor, y, b.kind⟩ =
        ExtNumeric.cmp a b) := by
  refine ⟨?_, ?_, fun x y => rfl⟩
  · rintro (h | h)
    · unfold ExtNumeric.cmp
      rw [if_pos h]
    · unfold ExtNumeric.cmp
      by_cases hv : a.vendor = b.vendor
      · rw [if_neg (not_not_intro hv), if_pos h]
      · rw [if_pos hv]
  · intro hv hk
    unfold ExtNumeric.cmp
    rw [if_neg (not_not_intro hv), if_neg (not_not_intro hk)]

/-- Witness for C7: the spec examples
`{1.0, "v", "k"}` vs `{2.0, "v", "other"}` (incomparable) and
`{1.0, "v", "k"}` vs `{2.0, "v", "k"}` (less-than), with distinct `adapter`
strings throughout. -/
theorem c7_witness :
    ExtNumeric.cmp ⟨1, "v", "a1", "k"⟩ ⟨2, "v", "a2", "other"⟩ = none ∧
    ExtNumeric.cmp ⟨1, "v", "a1", "k"⟩ ⟨2, "v", "a2", "k"⟩ = some Ordering.lt := by
  constructor
  · exact (c7_extnumeric_cmp ⟨1, "v", "a1", "k"⟩ ⟨2, "v", "a2", "other"⟩).1
      (Or.inr (by decide))
  · rw [(c7_extnumeric_cmp ⟨1, "v", "a1", "k"⟩ ⟨2, "v", "a2", "k"⟩).2.1 rfl rfl]
    norm_num [cmpLin_eq_lt]

theorem ordIsLt_true {o : Option Ordering} : ordIsLt o = true ↔ o = some Ordering.lt := by
  cases o with
  | none => simp [ordIsLt]
  | some o2 => cases o2 <;> simp [ordIsLt]

/-- Inversion of a successful `ExtNumeric` comparison: vendor and kind agree
and the result is the numeric comparison. -/
theorem extCmp_eq_some {a b : ExtNumeric} {o : Ordering}
    (h : ExtNumeric.cmp a b = some o) :
    a.vendor = b.vendor ∧ a.kind = b.kind ∧ cmpLin a.value b.value = o := by
  by_cases hv : a.vendor = b.vendor
  · by_cases hk : a.kind = b.kind
    · refine ⟨hv, hk, ?_⟩
      unfold ExtNumeric.cmp at h
      rw [if_neg (not_not_intro hv), if_neg (not_not_intro hk)] at h
      exact Option.some.inj h
    · exfalso
      unfold ExtNumeric.cmp at h
      rw [if_neg (not_not_intro hv), if_pos hk] at h
      exact Option.noConfusion h
  · exfalso
    unfold ExtNumeric.cmp at h
    rw [if_pos hv] at h
    exact Option.noConfusion h

/-- C9: a `BetweenEq` range whose `max` is strictly below its `min` under the
`Value` partial order contains no value at all (`contains` returns `false`,
and in particular does not panic: a strict comparison of the bounds rules the
`Temperature` variant out). -/
theorem c9_inverted_betweeneq_empty (mn mx : Value) (h : valueLt mx mn = some true)
    (v : Value) : Range.contains (Range.BetweenEq mn mx) v = some false := by
  cases mn <;> cases mx <;>
    first
      | (revert h; simp [valueLt, valueCmp, ordIsLt, Temperature.cmp, Temperature.as_c]; done)
      | skip
  case Bool.Bool b1 b2 =>
    have hlt : cmpLin b2 b1 = Ordering.lt :=
      Option.some.inj (ordIsLt_true.mp
        (by simpa only [valueLt, valueCmp, Option.map_some', Option.some.injEq] using h))
    cases v <;> try rfl
    case Bool bv => exact between_aux hlt bv
  case Duration.Duration d1 d2 =>
    have hlt : ValDuration.cmp d2 d1 = Ordering.lt :=
      Option.some.inj (ordIsLt_true.mp
        (by simpa only [valueLt, valueCmp, Option.map_some', Option.some.injEq] using h))
    cases v <;> try rfl
    case Duration dv => exact between_aux hlt dv
  case TimeStamp.TimeStamp t1 t2 =>
    have hlt : TimeStamp.cmp t2 t1 = Ordering.lt :=
      Option.some.inj (ordIsLt_true.mp
        (by simpa only [valueLt, valueCmp, Option.map_some', Option.some.injEq] using h))
    cases v <;> try rfl
    case TimeStamp tv => exact between_aux hlt tv
  case Color.Color c1 c2 =>
    have hlt : Color.cmp c2 c1 = Ordering.lt :=
      Option.some.inj (ordIsLt_true.mp
        (by simpa only [valueLt, valueCmp, Option.map_some', Option.some.injEq] using h))
    cases v <;> try rfl
    case Color cv => exact between_aux hlt cv
  case String.String s1 s2 =>
    have hlt : strCmp s2 s1 = Ordering.lt :=
      Option.some.inj (ordIsLt_true.mp
        (by simpa only [valueLt, valueCmp, Option.map_some', Option.some.injEq] using h))
    cases v <;> try rfl
    case String sv => exact between_aux hlt sv
  case ExtNumeric.ExtNumeric e1 e2 =>
    have hcm : ExtNumeric.cmp e2 e1 = some Ordering.lt :=
      ordIsLt_true.mp
        (by simpa only [valueLt, valueCmp, Option.map_some', Option.some.injEq] using h)
    obtain ⟨hv, hk, hql⟩ := extCmp_eq_some hcm
    cases v <;> try rfl
    case ExtNumeric ev =>
      show optAnd (some (ordIsLe (ExtNumeric.cmp e1 ev)))
          (some (ordIsLe (ExtNumeric.cmp ev e2))) = some false
      by_cases hv2 : e1.vendor = ev.vendor
      · by_cases hk2 : e1.kind = ev.kind
        · have hv3 : ev.vendor = e2.vendor := by rw [hv]; exact hv2.symm
          have hk3 : ev.kind = e2.kind := by rw [hk]; exact hk2.symm
          have q1 : ExtNumeric.cmp e1 ev = some (cmpLin e1.value ev.value) := by
            unfold ExtNumeric.cmp
            rw [if_neg (not_not_intro hv2), if_neg (not_not_intro hk2)]
          have q2 : ExtNumeric.cmp ev e2 = some (cmpLin ev.value e2.value) := by
            unfold ExtNumeric.cmp
            rw [if_neg (not_not_intro hv3), if_neg (not_not_intro hk3)]
          rw [q1, q2]
          exact between_aux hql ev.value
        · have q1 : ExtNumeric.cmp e1 ev = none := by
            unfold ExtNumeric.cmp
            rw [if_neg (not_not_intro hv2), if_pos hk2]
          rw [q1]
          rfl
      · have q1 : ExtNumeric.cmp e1 ev = none := by
          unfold ExtNumeric.cmp
          rw [if_pos hv2]
        rw [q1]
        rfl
  case Binary.Binary d1 m1 d2 m2 =>
    have h2 := h
    simp only [valueLt, valueCmp] at h2
    by_cases hm : m2 = m1
    · rw [if_pos hm] at h2
      simp only [Option.map_some', Option.some.injEq] at h2
      have hdl : cmpList cmpLin d2 d1 = Ordering.lt := Option.some.inj (ordIsLt_true.mp h2)
      subst hm
      cases v <;> try rfl
      next dv mv =>
        by_cases hmv : m2 = mv
        · subst hmv
          simp only [Range.contains, valueLe, valueCmp, eq_self_iff_true, if_true,
            Option.map_some']
          exact between_aux hdl dv
        · show Range.contains (Range.BetweenEq (Value.Binary d1 m2) (Value.Binary d2 m2))
              (Value.Binary dv mv) = some false
          have q1 : valueLe (Value.Binary d1 m2) (Value.Binary dv mv) = some false := by
            simp only [valueLe, valueCmp, if_neg hmv, Option.map_some']
            rfl
          simp only [Range.contains, q1]
          rfl
    · rw [if_neg hm] at h2
      simp [ordIsLt_none] at h2

/-- Witness for C9: `BetweenEq {min: Bool(true), max: Bool(false)}` has
`max < min` and accepts nothing, e.g. not `Bool(true)`. -/
theorem c9_witness :
    valueLt (Value.Bool false) (Value.Bool true) = some true ∧
    Range.contains (Range.BetweenEq (Value.Bool true) (Value.Bool false))
        (Value.Bool true) = some false :=
  ⟨by decide,
    c9_inverted_betweeneq_empty (Value.Bool true) (Value.Bool false) (by decide)
      (Value.Bool true)⟩

/-!  ## Lemmas: RFC 3339 round trip -/

theorem readDigit_digitChar {d : ℕ} (h : d < 10) : readDigit (digitChar d) = some d := by
  interval_cases d <;> rfl

theorem readDigits_pad {k n : ℕ} (h : n < 10 ^ k) (acc : ℕ) (rest : List Char) :
    readDigits k acc (padDigits k n ++ rest) = some (acc * 10 ^ k + n, rest) := by
  induction k generalizing n acc with
  | zero =>
      interval_cases n
      simp [padDigits, readDigits]
  | succ k ih =>
      have hp : 0 < 10 ^ k := pow_pos (by norm_num) k
      have hd : n / 10 ^ k < 10 := by
        rw [Nat.div_lt_iff_lt_mul hp]
        calc n < 10 ^ (k + 1) := h
          _ = 10 * 10 ^ k := by ring
      simp only [padDigits, List.cons_append, readDigits, readDigit_digitChar hd]
      rw [ih (Nat.mod_lt n hp) (acc * 10 + n / 10 ^ k)]
      have hdm := Nat.div_add_mod n (10 ^ k)
      have harith : (acc * 10 + n / 10 ^ k) * 10 ^ k + n % 10 ^ k = acc * 10 ^ (k + 1) + n := by
        calc (acc * 10 + n / 10 ^ k) * 10 ^ k + n % 10 ^ k
            = acc * (10 * 10 ^ k) + (10 ^ k * (n / 10 ^ k) + n % 10 ^ k) := by ring
          _ = acc * (10 * 10 ^ k) + n := by rw [hdm]
          _ = acc * 10 ^ (k + 1) + n := by ring
      rw [harith]

theorem readFracDigits_pad {fuel n : ℕ} (h : n < 10 ^ fuel) (acc cnt : ℕ) (rest : List Char) :
    readFracDigits fuel acc cnt (padDigits fuel n ++ rest) = (acc * 10 ^ fuel + n, cnt + fuel, rest) := by
  induction fuel generalizing n acc cnt with
  | zero =>
      interval_cases n
      simp [padDigits, readFracDigits]
  | succ fuel ih =>
      have hp : 0 < 10 ^ fuel := pow_pos (by norm_num) fuel
      have hd : n / 10 ^ fuel < 10 := by
        rw [Nat.div_lt_iff_lt_mul hp]
        calc n < 10 ^ (fuel + 1) := h
          _ = 10 * 10 ^ fuel := by ring
      simp only [padDigits, List.cons_append, readFracDigits, readDigit_digitChar hd]
      rw [ih (Nat.mod_lt n hp) (acc * 10 + n / 10 ^ fuel) (cnt + 1)]
      have hdm := Nat.div_add_mod n (10 ^ fuel)
      have harith : (acc * 10 + n / 10 ^ fuel) * 10 ^ fuel + n % 10 ^ fuel
          = acc * 10 ^ (fuel + 1) + n := by
        calc (acc * 10 + n / 10 ^ fuel) * 10 ^ fuel + n % 10 ^ fuel
            = acc * (10 * 10 ^ fuel) + (10 ^ fuel * (n / 10 ^ fuel) + n % 10 ^ fuel) := by ring
          _ = acc * (10 * 10 ^ fuel) + n := by rw [hdm]
          _ = acc * 10 ^ (fuel + 1) + n := by ring
      rw [harith]
      have hcnt : cnt + 1 + fuel = cnt + (fuel + 1) := by omega
      rw [hcnt]

theorem expectChar_cons (c : Char) (l : List Char) : expectChar c (c :: l) = some l := by
  simp [expectChar]

theorem readOffset_offsetPart : readOffset offsetPart = some [] := rfl

theorem readFrac_fracPart {n : ℕ} (h : n < 1000000000) :
    readFrac (fracPart n ++ offsetPart) = some (n, offsetPart) := by
  by_cases h0 : n = 0
  · subst h0
    simp only [fracPart, if_pos rfl, List.nil_append]
    rfl
  · have hfp : fracPart n = '.' :: padDigits 9 n := by rw [fracPart, if_neg h0]
    rw [hfp, List.cons_append]
    have h9 : n < 10 ^ 9 := by
      rw [show (10 : ℕ) ^ 9 = 1000000000 from by norm_num]
      exact h
    simp only [readFrac, if_pos rfl, readFracDigits_pad h9 0 0 offsetPart,
      Nat.zero_mul, Nat.zero_add]
    norm_num

set_option maxHeartbeats 2000000 in
theorem daysInMonth_le (y m : ℕ) : daysInMonth y m ≤ 31 := by
  unfold daysInMonth
  split_ifs <;> omega

/-- Round trip of the RFC 3339 encoding on every valid timestamp. -/
theorem parse_print_rfc3339 {t : DateTimeUTC} (h : validDT t = true) :
    parseRfc3339 (printRfc3339 t) = some t := by
  obtain ⟨y, mo, dy, hr, mi, se, na⟩ := t
  have hb := h
  simp only [validDT, Bool.and_eq_true, decide_eq_true_eq] at hb
  obtain ⟨⟨⟨⟨⟨⟨⟨⟨h1, h2⟩, h3⟩, h4⟩, h5⟩, h6⟩, h7⟩, h8⟩, h9⟩ := hb
  have hy : y < 10 ^ 4 := by
    rw [show (10 : ℕ) ^ 4 = 10000 from by norm_num]
    exact h1
  have hdim := daysInMonth_le y mo
  have e2 : (10 : ℕ) ^ 2 = 100 := by norm_num
  have hmo : mo < 10 ^ 2 := by omega
  have hdy : dy < 10 ^ 2 := by omega
  have hhr : hr < 10 ^ 2 := by omega
  have hmi : mi < 10 ^ 2 := by omega
  have hse : se < 10 ^ 2 := by omega
  simp only [printRfc3339, parseRfc3339, readDigits_pad hy, readDigits_pad hmo,
    readDigits_pad hdy, readDigits_pad hhr, readDigits_pad hmi, readDigits_pad hse,
    Nat.zero_mul, Nat.zero_add, expectChar_cons, readFrac_fracPart h9,
    readOffset_offsetPart, h, if_true]

/-- C6: a timestamp serializes as its RFC 3339 string and deserializing that
string reproduces the identical instant, while deserializing `"not-a-date"`
fails with the syntax condition. -/
theorem c6_timestamp_roundtrip (t : TimeStamp) (h : validDT t = true) :
    TimeStamp.deserialize (TimeStamp.serialize t) = Except.ok t ∧
    TimeStamp.deserialize "not-a-date" = Except.error "Invalid date" := by
  constructor
  · unfold TimeStamp.deserialize TimeStamp.serialize
    rw [show (String.mk (printRfc3339 t)).toList = printRfc3339 t from rfl,
      parse_print_rfc3339 h]
  · rfl

/-- Witness for C6 at `2020-01-01T00:00:00Z` (the spec example). -/
theorem c6_witness :
    validDT ⟨2020, 1, 1, 0, 0, 0, 0⟩ = true ∧
    (TimeStamp.deserialize (TimeStamp.serialize ⟨2020, 1, 1, 0, 0, 0, 0⟩) =
        Except.ok ⟨2020, 1, 1, 0, 0, 0, 0⟩ ∧
      TimeStamp.deserialize "not-a-date" = Except.error "Invalid date") :=
  ⟨by decide, c6_timestamp_roundtrip ⟨2020, 1, 1, 0, 0, 0, 0⟩ (by decide)⟩

/-!  ## Lemmas: the tag engine -/

theorem mem_addTag_self (l : List String) (t : String) : t ∈ addTag l t := by
  unfold addTag
  split_ifs with h
  · simpa using h
  · simp

theorem mem_addTag_of_mem {l : List String} {s : String} (h : s ∈ l) (t : String) :
    s ∈ addTag l t := by
  unfold addTag
  split_ifs
  · exact h
  · exact List.mem_append_left _ h

theorem mem_addTags_of_mem {l : List String} {s : String} (h : s ∈ l) (ts : List String) :
    s ∈ addTags l ts := by
  induction ts generalizing l with
  | nil => exact h
  | cons t ts ih => exact ih (mem_addTag_of_mem h t)

theorem mem_addTags_of_mem_ts {l : List String} {t : String} (ts : List String)
    (h : t ∈ ts) : t ∈ addTags l ts := by
  induction ts generalizing l with
  | nil => cases h
  | cons t2 ts ih =>
      rcases List.mem_cons.mp h with rfl | h2
      · exact mem_addTags_of_mem (mem_addTag_self l t) ts
      · exact ih h2

theorem nodup_addTag {l : List String} (h : l.Nodup) (t : String) : (addTag l t).Nodup := by
  unfold addTag
  split_ifs with hc
  · exact h
  · have hnm : t ∉ l := by simpa using hc
    simp [List.nodup_append, h, hnm]

theorem nodup_addTags {l : List String} (h : l.Nodup) (ts : List String) :
    (addTags l ts).Nodup := by
  induction ts generalizing l with
  | nil => exact h
  | cons t ts ih => exact ih (nodup_addTag h t)

/-- Adding tags never makes a node stop matching a tag-containment
selector. -/
theorem selMatches_mono {sel : NodeSelector} {n : Node} (h : selMatches sel n = true)
    (ts : List String) : selMatches sel (⟨n.id, addTags n.tags ts⟩ : Node) = true := by
  unfold selMatches at h ⊢
  rw [List.all_eq_true] at h ⊢
  intro t ht
  have h2 : t ∈ n.tags := by simpa using h t ht
  simpa using mem_addTags_of_mem h2 ts

/-- The tag operation leaves the match status of every node unchanged: an
already matched node keeps matching (tags only grow), an unmatched node is
untouched. -/
theorem selAny_tagNode (sels : List NodeSelector) (ts : List String) (n : Node) :
    selAnyMatches sels (tagNode sels ts n) = selAnyMatches sels n := by
  unfold tagNode
  split_ifs with h
  · rw [h]
    unfold selAnyMatches at h ⊢
    rw [List.any_eq_true] at h ⊢
    obtain ⟨sel, hmem, hsel⟩ := h
    exact ⟨sel, hmem, selMatches_mono hsel ts⟩
  · rfl

/-- C8: the tag operation resolves its selectors once as a snapshot over the
given node list; it adds every requested tag idempotently, so a matched node
with a duplicate-free tag set carries each requested tag exactly once
afterwards; calling it a second time on the resulting state returns the same
count; and a node appended to the system after the call keeps exactly its own
tags. -/
theorem c8_put_node_tag_idempotent_snapshot (sels : List NodeSelector) (ts : List String)
    (nodes : List Node) :
    (∀ n : Node, selAnyMatches sels n = true → n.tags.Nodup →
      ∀ t, t ∈ ts → (tagNode sels ts n).tags.count t = 1) ∧
    (put_node_tag sels ts ((put_node_tag sels ts nodes).2)).1 =
        (put_node_tag sels ts nodes).1 ∧
    (∀ nn : Node, ((put_node_tag sels ts nodes).2 ++ [nn]).getLast? = some nn) := by
  refine ⟨?_, ?_, ?_⟩
  · intro n hm hnd t ht
    unfold tagNode
    rw [if_pos hm]
    exact List.count_eq_one_of_mem (nodup_addTags hnd ts) (mem_addTags_of_mem_ts ts ht)
  · simp only [put_node_tag]
    rw [List.countP_map]
    apply List.countP_congr
    intro n hn
    simp [Function.comp, selAny_tagNode]
  · intro nn
    simp [List.getLast?_concat]

/-- Witness for C8 on the spec example: one door node, tagging `entrance`
through the `door` selector; count 1 both times, `entrance` present once. -/
theorem c8_witness :
    (put_node_tag [⟨["door"]⟩] ["entrance"] [⟨"n1", ["door"]⟩]).1 = 1 ∧
    (put_node_tag [⟨["door"]⟩] ["entrance"]
        ((put_node_tag [⟨["door"]⟩] ["entrance"] [⟨"n1", ["door"]⟩]).2)).1 =
      (put_node_tag [⟨["door"]⟩] ["entrance"] [⟨"n1", ["door"]⟩]).1 ∧
    (tagNode [⟨["door"]⟩] ["entrance"] ⟨"n1", ["door"]⟩).tags.count "entrance" = 1 := by
  refine ⟨by decide,
    (c8_put_node_tag_idempotent_snapshot [⟨["door"]⟩] ["entrance"] [⟨"n1", ["door"]⟩]).2.1,
    ?_⟩
  exact (c8_put_node_tag_idempotent_snapshot [⟨["door"]⟩] ["entrance"]
      [⟨"n1", ["door"]⟩]).1 ⟨"n1", ["door"]⟩ (by decide) (by decide) "entrance" (by decide)

/-- C10: every `WatchOptions` builder method touches only its own field:
`with_watch_values` and `with_watch_topology` set exactly their flag,
`with_getters` only conjoins onto the source selector, and `new` starts with
both flags `false`. -/
theorem c10_watchoptions_frame (w : WatchOptions) (b : Bool) (req : GetterSelector) :
    (w.with_watch_values b).source = w.source ∧
    (w.with_watch_values b).should_watch_topology = w.should_watch_topology ∧
    (w.with_watch_values b).should_watch_values = b ∧
    (w.with_watch_topology b).source = w.source ∧
    (w.with_watch_topology b).should_watch_values = w.should_watch_values ∧
    (w.with_watch_topology b).should_watch_topology = b ∧
    (w.with_getters req).should_watch_values = w.should_watch_values ∧
    (w.with_getters req).should_watch_topology = w.should_watch_topology ∧
    (w.with_getters req).source = w.source.and req ∧
    WatchOptions.new.should_watch_values = false ∧
    WatchOptions.new.should_watch_topology = false :=
  ⟨rfl, rfl, rfl, rfl, rfl, rfl, rfl, rfl, rfl, rfl, rfl⟩

end Taxonomy
